import Mathlib

/-
Verification development for the slots-automation repository.

Source files modelled here:
  * ollama-ocr-slots/score_reader.py   (read_game_score_custom_crop)
  * auto-gameplay-slots/auto_play.py   (find_canvas_in_frames)

Strings are modelled as lists of characters.  The OCR engine, the image
decoder and the browser are modelled as abstract inputs (an environment
record for the score pipeline, a tree of probe outcomes for the frame
search); everything the repository itself computes is translated
directly from the Python source.
-/

/-! ## Strings as character lists -/

abbrev Str := List Char

/-- Character list of a Lean string literal. -/
def strOf (s : String) : Str := s.data

/-! ## Number-candidate extraction (score_reader.py, line 117)

The source runs `re.findall(r'\b\d+\.\d{2}\b|\b\d+\b', full_ocr_text)`.
Python's scanner tries a match at each position from left to right; on
success it emits the match and resumes right after it, otherwise it
advances one character.  At a given position the decimal alternative
`\b\d+\.\d{2}\b` is tried before the integer alternative `\b\d+\b`.

Greedy `\d+` is forced to take the maximal digit run in both
alternatives (backtracking cannot help: a shorter run would put a digit
where the pattern next requires `.` respectively a word boundary), so
each alternative reduces to the functions below. -/

/-- Python regex word character (ASCII): letter, digit or underscore. -/
def isWordChar (c : Char) : Bool := c.isAlphanum || c == '_'

/-- Word boundary `\b` directly after a digit: holds at end of input or
before a non-word character. -/
def boundaryAfter : Str → Bool
  | [] => true
  | c :: _ => ! isWordChar c

/-- Attempt of the alternative `\b\d+\.\d{2}\b` at the head of `s`
(the `\b` on the left is checked by the caller).  Returns the matched
characters and the remaining input. -/
def tryDecimal (s : Str) : Option (Str × Str) :=
  let run := s.takeWhile Char.isDigit
  match s.dropWhile Char.isDigit with
  | dot :: d1 :: d2 :: rest =>
    if dot = '.' && !run.isEmpty && d1.isDigit && d2.isDigit && boundaryAfter rest then
      some (run ++ [dot, d1, d2], rest)
    else none
  | _ => none

/-- Attempt of the alternative `\b\d+\b` at the head of `s`. -/
def tryInt (s : Str) : Option (Str × Str) :=
  let run := s.takeWhile Char.isDigit
  let rest := s.dropWhile Char.isDigit
  if !run.isEmpty && boundaryAfter rest then some (run, rest) else none

/-- Scan of `re.findall` over the input.  `prevWord` records whether the
character immediately before the current position is a word character
(no match can start right after a word character, because both
alternatives open with `\b\d`).  `fuel` is a structural bound on the
number of scan steps; every step consumes at least one character, so
`fuel = s.length` (as used by `findall`) never runs out. -/
def findallAux : Nat → Bool → Str → List Str
  | 0, _, _ => []
  | _ + 1, _, [] => []
  | fuel + 1, prevWord, c :: rest =>
    if prevWord then
      findallAux fuel (isWordChar c) rest
    else
      match tryDecimal (c :: rest) with
      | some m => m.1 :: findallAux fuel true m.2
      | none =>
        match tryInt (c :: rest) with
        | some m => m.1 :: findallAux fuel true m.2
        | none => findallAux fuel (isWordChar c) rest

/-- All matches of `\b\d+\.\d{2}\b|\b\d+\b` in `text`, in order
(score_reader.py line 117). -/
def findall (text : Str) : List Str := findallAux text.length false text

/-! ## Filtering and prioritization (score_reader.py, lines 121-149) -/

/-- Sentinel returned when no candidate survives (line 129). -/
def sentinel : Str := strOf "No suitable score found."

/-- The test `'.' in s` (lines 134 and 136). -/
def hasDot (s : Str) : Bool := s.contains '.'

/-- The length filter `1 <= len(num_str) <= 7` (line 126). -/
def inWindow (s : Str) : Bool := decide (1 ≤ s.length ∧ s.length ≤ 7)

/-- Python's `max(x0 :: xs, key=len)`: fold that replaces the champion
only on strictly greater length, so the first element of maximal length
wins (lines 140 and 143). -/
def pyMax (x0 : Str) (xs : List Str) : Str :=
  xs.foldl (fun best y => if best.length < y.length then y else best) x0

/-- Lines 129-143: partition the filtered candidates into decimal and
integer ones, prefer the decimals, and inside the chosen partition take
the longest candidate (first on ties); default to the sentinel. -/
def prioritize (final_score_candidates : List Str) : Str :=
  if final_score_candidates.isEmpty then sentinel
  else
    let decimal_scores := final_score_candidates.filter hasDot
    let integer_scores := final_score_candidates.filter fun s => !hasDot s
    match decimal_scores, integer_scores with
    | d :: ds, _ => pyMax d ds
    | [], i :: js => pyMax i js
    | [], [] => sentinel

/-- The number-extraction and selection logic applied to a recognized
text blob (score_reader.py lines 113-149). -/
def selectScore (full_ocr_text : Str) : Str :=
  let numbers_candidates := findall full_ocr_text
  let final_score_candidates := numbers_candidates.filter inWindow
  prioritize final_score_candidates

/-! ## Reference candidate extraction (spec wording, for the refinement
claim)

The spec describes extraction as: "Extract all maximal substrings
matching one of two shapes: a decimal number with exactly two fractional
digits, or a bare integer.  Overlap resolution: the decimal pattern is
tried first at each position so integers that are actually the start of
a decimal number are not mis-captured as bare integers."  The input is
"a raw text blob already restricted to characters {0-9, '.'}" (joined
with spaces), so on the spec side a token boundary is simply the absence
of an adjacent digit. -/

/-- Spec side: a digit run is maximal on the right when no digit
follows. -/
def refBoundaryAfter : Str → Bool
  | [] => true
  | c :: _ => ! c.isDigit

/-- Spec side: a decimal number with exactly two fractional digits
starting at the head of the input, maximal in both directions. -/
def refTryDec (s : Str) : Option (Str × Str) :=
  let run := s.takeWhile Char.isDigit
  match s.dropWhile Char.isDigit with
  | dot :: d1 :: d2 :: rest =>
    if dot = '.' && !run.isEmpty && d1.isDigit && d2.isDigit && refBoundaryAfter rest then
      some (run ++ [dot, d1, d2], rest)
    else none
  | _ => none

/-- Spec side: a maximal bare digit run starting at the head of the
input. -/
def refTryInt (s : Str) : Option (Str × Str) :=
  let run := s.takeWhile Char.isDigit
  let rest := s.dropWhile Char.isDigit
  if !run.isEmpty && refBoundaryAfter rest then some (run, rest) else none

/-- Spec side scan: at every position that is not immediately preceded
by a digit, try the decimal shape first, then the bare-integer shape;
`prevDigit` records whether the previous character is a digit. -/
def refExtractAux : Nat → Bool → Str → List Str
  | 0, _, _ => []
  | _ + 1, _, [] => []
  | fuel + 1, prevDigit, c :: rest =>
    if prevDigit then
      refExtractAux fuel c.isDigit rest
    else
      match refTryDec (c :: rest) with
      | some m => m.1 :: refExtractAux fuel true m.2
      | none =>
        match refTryInt (c :: rest) with
        | some m => m.1 :: refExtractAux fuel true m.2
        | none => refExtractAux fuel c.isDigit rest

/-- Reference extraction following the spec's wording. -/
def refExtract (text : Str) : List Str := refExtractAux text.length false text

/-! ## Crop computation and the full score pipeline
(score_reader.py, lines 21-157) -/

/-- An axis-aligned crop rectangle `(x1, y1, x2, y2)`. -/
structure CropRect where
  x1 : Int
  y1 : Int
  x2 : Int
  y2 : Int
deriving DecidableEq

/-- Lines 40-60.  The source computes `x2 = int(w * 0.5)`,
`y1 = int(h * 0.1)`, `y2 = int(h * 0.9)` with Python floats; modelled
here by exact integer truncation (`w * 0.5` is exact in floating point,
and for the 0.1/0.9 ratios the two computations agree up to rounding of
the last unit, which no claim depends on: both stay inside `[0, h]`). -/
def proposedRect (w h : Nat) : CropRect :=
  ⟨0, (h : Int) / 10, (w : Int) / 2, 9 * (h : Int) / 10⟩

/-- Lines 65-68: clamp the crop coordinates to the image. -/
def clampCrop (w h : Int) (r : CropRect) : CropRect :=
  ⟨max 0 r.x1, max 0 r.y1, min w r.x2, min h r.y2⟩

/-- Lines 40-73: compute, clamp and validate the crop rectangle for an
image of width `w` and height `h`. -/
def cropRegion (w h : Nat) : Except Str CropRect :=
  let r := clampCrop w h (proposedRect w h)
  if r.x1 ≥ r.x2 ∨ r.y1 ≥ r.y2 then
    Except.error (strOf "Invalid custom crop region.")
  else
    Except.ok r

/-- Python's `" ".join` on the recognized fragments (line 103). -/
def joinSpace : List Str → Str
  | [] => []
  | [s] => s
  | s :: rest => s ++ ' ' :: joinSpace rest

/-- Abstract inputs of one run of `read_game_score_custom_crop`:
whether the image file exists (line 21), the decoded image's
`(height, width)` if OpenCV can load it (lines 25-30), and the outcome
of the recognition call on the cropped image (line 99) - either the
list of recognized text fragments or an exception. -/
structure OcrEnv where
  fileExists : Bool
  decoded : Option (Nat × Nat)
  ocrText : Except Unit (List Str)

/-- The full score-reading entry point (lines 21-157).  Returns `none`
for Python `None` and `some msg` for every string outcome. -/
def read_game_score_custom_crop (env : OcrEnv) : Option Str :=
  if env.fileExists = false then none
  else
    match env.decoded with
    | none => none
    | some (h, w) =>
      match cropRegion w h with
      | Except.error msg => some msg
      | Except.ok r =>
        if r.y2 - r.y1 = 0 ∨ r.x2 - r.x1 = 0 then
          some (strOf "Empty cropped image after crop.")
        else
          match env.ocrText with
          | Except.error _ => none
          | Except.ok results =>
            let full_ocr_text := joinSpace results
            if full_ocr_text.isEmpty then
              some (strOf "No text found by EasyOCR.")
            else
              some (selectScore full_ocr_text)

/-! ## Frame-tree canvas search (auto_play.py, lines 5-32)

A frame is modelled by the outcome of probing its first canvas locator
(`frame.locator("canvas").first; await canvas.is_visible()`): either a
visibility Boolean or an exception, together with its child frames. -/

inductive FrameTree : Type where
  | mk : Except Unit Bool → List FrameTree → FrameTree

/-- The probe succeeded and reported a visible canvas; an exception or
an invisible canvas count as no match for this frame (lines 17-24). -/
def canvasVisible : FrameTree → Bool
  | FrameTree.mk probe _ =>
    match probe with
    | Except.ok b => b
    | Except.error _ => false

/-- Lines 16-32: for each frame in the list, probe it (a visible canvas
returns immediately, an exception is swallowed), then recurse into its
child frames, then continue with the remaining frames; `none` when the
whole tree has no visible canvas. -/
def find_canvas_in_frames : List FrameTree → Option FrameTree
  | [] => none
  | FrameTree.mk probe cs :: rest =>
    if canvasVisible (FrameTree.mk probe cs) then
      some (FrameTree.mk probe cs)
    else
      match find_canvas_in_frames cs with
      | some found => some found
      | none => find_canvas_in_frames rest

/-- Depth-first pre-order listing of a forest of frames: the node
itself, then its children in encounter order, then its siblings. -/
def preorderL : List FrameTree → List FrameTree
  | [] => []
  | FrameTree.mk probe cs :: rest =>
    FrameTree.mk probe cs :: (preorderL cs ++ preorderL rest)

/-- Number of frames in a forest. -/
def sizeL : List FrameTree → Nat
  | [] => 0
  | FrameTree.mk _ cs :: rest => 1 + sizeL cs + sizeL rest

/-- Step-bounded execution of the search: `none` when the step budget
is exhausted before an answer is reached, `some r` when the search
finishes with result `r` within the budget. -/
def findFuel : Nat → List FrameTree → Option (Option FrameTree)
  | _, [] => some none
  | 0, _ :: _ => none
  | fuel + 1, FrameTree.mk probe cs :: rest =>
    if canvasVisible (FrameTree.mk probe cs) then
      some (some (FrameTree.mk probe cs))
    else
      match findFuel fuel cs with
      | none => none
      | some (some found) => some (some found)
      | some none => findFuel fuel rest

/-! ## Derived definitions used in theorem statements -/

/-- The crop stage lets execution reach the recognition call: the
clamped rectangle is non-empty (line 71) and the sliced image has
non-zero extent (line 79). -/
def cropStagePasses (h w : Nat) : Bool :=
  match cropRegion w h with
  | Except.error _ => false
  | Except.ok r => if r.y2 - r.y1 = 0 ∨ r.x2 - r.x1 = 0 then false else true

/-- Specification of a stable max-by-length pick: `x` occurs in `xs`,
no element is longer, and everything before some occurrence of `x` is
strictly shorter (so that occurrence is the first of maximal length). -/
def isFirstMax (xs : List Str) (x : Str) : Prop :=
  x ∈ xs ∧ (∀ y ∈ xs, y.length ≤ x.length) ∧
    ∃ l₁ l₂, xs = l₁ ++ x :: l₂ ∧ ∀ y ∈ l₁, y.length < x.length

/-! ## Helper lemmas about the stable max-by-length fold -/

theorem pyMax_cons (x0 y : Str) (ys : List Str) :
    pyMax x0 (y :: ys) = pyMax (if x0.length < y.length then y else x0) ys := rfl

theorem pyMax_mem : ∀ (xs : List Str) (x0 : Str), pyMax x0 xs ∈ x0 :: xs := by
  intro xs
  induction xs with
  | nil => intro x0; simp [pyMax]
  | cons y ys ih =>
    intro x0
    rw [pyMax_cons]
    by_cases hxy : x0.length < y.length
    · rw [if_pos hxy]
      rcases List.mem_cons.mp (ih y) with h' | h'
      · rw [h']; exact List.mem_cons_of_mem _ (List.mem_cons_self _ _)
      · exact List.mem_cons_of_mem _ (List.mem_cons_of_mem _ h')
    · rw [if_neg hxy]
      rcases List.mem_cons.mp (ih x0) with h' | h'
      · rw [h']; exact List.mem_cons_self _ _
      · exact List.mem_cons_of_mem _ (List.mem_cons_of_mem _ h')

theorem pyMax_ge :
    ∀ (xs : List Str) (x0 : Str), ∀ y ∈ x0 :: xs, y.length ≤ (pyMax x0 xs).length := by
  intro xs
  induction xs with
  | nil =>
    intro x0 y hy
    simp only [List.mem_singleton] at hy
    simp [pyMax, hy]
  | cons z zs ih =>
    intro x0 y hy
    rw [pyMax_cons]
    by_cases hx : x0.length < z.length
    · rw [if_pos hx]
      rcases List.mem_cons.mp hy with h' | hy'
      · rw [h']
        exact le_trans (le_of_lt hx) (ih z z (List.mem_cons_self _ _))
      · exact ih z y hy'
    · rw [if_neg hx]
      rcases List.mem_cons.mp hy with h' | hy'
      · rw [h']
        exact ih x0 x0 (List.mem_cons_self _ _)
      · rcases List.mem_cons.mp hy' with h'' | hy''
        · rw [h'']
          exact le_trans (Nat.le_of_not_lt hx) (ih x0 x0 (List.mem_cons_self _ _))
        · exact ih x0 y (List.mem_cons_of_mem _ hy'')

theorem pyMax_first :
    ∀ (xs : List Str) (x0 : Str),
      pyMax x0 xs = x0 ∨
        ∃ l₁ l₂, xs = l₁ ++ (pyMax x0 xs) :: l₂ ∧
          x0.length < (pyMax x0 xs).length ∧
          ∀ y ∈ l₁, y.length < (pyMax x0 xs).length := by
  intro xs
  induction xs with
  | nil => intro x0; left; rfl
  | cons z zs ih =>
    intro x0
    rw [pyMax_cons]
    by_cases hx : x0.length < z.length
    · rw [if_pos hx]
      rcases ih z with heq | ⟨l₁, l₂, hsplit, hlt, hall⟩
      · right
        refine ⟨[], zs, ?_, ?_, by simp⟩
        · rw [heq, List.nil_append]
        · rw [heq]; exact hx
      · right
        refine ⟨z :: l₁, l₂, ?_, lt_trans hx hlt, ?_⟩
        · rw [List.cons_append, ← hsplit]
        · intro y hy
          rcases List.mem_cons.mp hy with rfl | hy'
          · exact hlt
          · exact hall y hy'
    · rw [if_neg hx]
      rcases ih x0 with heq | ⟨l₁, l₂, hsplit, hlt, hall⟩
      · left; exact heq
      · right
        refine ⟨z :: l₁, l₂, ?_, hlt, ?_⟩
        · rw [List.cons_append, ← hsplit]
        · intro y hy
          rcases List.mem_cons.mp hy with rfl | hy'
          · exact lt_of_le_of_lt (Nat.le_of_not_lt hx) hlt
          · exact hall y hy'

theorem pyMax_isFirstMax (x0 : Str) (xs : List Str) :
    isFirstMax (x0 :: xs) (pyMax x0 xs) := by
  refine ⟨pyMax_mem xs x0, pyMax_ge xs x0, ?_⟩
  rcases pyMax_first xs x0 with heq | ⟨l₁, l₂, hsplit, hlt, hall⟩
  · exact ⟨[], xs, by rw [heq, List.nil_append], by simp⟩
  · refine ⟨x0 :: l₁, l₂, ?_, ?_⟩
    · rw [List.cons_append, ← hsplit]
    · intro y hy
      rcases List.mem_cons.mp hy with rfl | hy'
      · exact hlt
      · exact hall y hy'

/-! ## Helper lemmas about prioritization -/

theorem prioritize_eq_decimal (cands : List Str) (d : Str) (ds : List Str)
    (hd : cands.filter hasDot = d :: ds) : prioritize cands = pyMax d ds := by
  have hne : cands ≠ [] := by
    intro h0; rw [h0] at hd; simp at hd
  unfold prioritize
  rw [if_neg (by simp [hne]), hd]

theorem prioritize_eq_integer (cands : List Str) (i : Str) (js : List Str)
    (hd : cands.filter hasDot = []) (hi : cands.filter (fun s => !hasDot s) = i :: js) :
    prioritize cands = pyMax i js := by
  have hne : cands ≠ [] := by
    intro h0; rw [h0] at hi; simp at hi
  unfold prioritize
  rw [if_neg (by simp [hne]), hd, hi]

theorem prioritize_spec (cands : List Str) :
    prioritize cands = sentinel ∨ prioritize cands ∈ cands := by
  cases hd : cands.filter hasDot with
  | cons d ds =>
    right
    rw [prioritize_eq_decimal cands d ds hd]
    have hm : pyMax d ds ∈ cands.filter hasDot := by
      rw [hd]; exact pyMax_mem ds d
    exact (List.mem_filter.mp hm).1
  | nil =>
    cases hi : cands.filter (fun s => !hasDot s) with
    | cons i js =>
      right
      rw [prioritize_eq_integer cands i js hd hi]
      have hm : pyMax i js ∈ cands.filter (fun s => !hasDot s) := by
        rw [hi]; exact pyMax_mem js i
      exact (List.mem_filter.mp hm).1
    | nil =>
      left
      unfold prioritize
      by_cases he : cands.isEmpty
      · rw [if_pos he]
      · rw [if_neg he, hd, hi]

/-! ## Helper lemmas about the regex scan -/

theorem mem_of_dropWhile {p : Char → Bool} :
    ∀ (l : Str) (x : Char), x ∈ l.dropWhile p → x ∈ l := by
  intro l
  induction l with
  | nil => intro x h; simp at h
  | cons a t ih =>
    intro x h
    rw [List.dropWhile_cons] at h
    split at h
    · exact List.mem_cons_of_mem _ (ih x h)
    · exact h

theorem length_take_drop (p : Char → Bool) (l : Str) :
    (l.takeWhile p).length + (l.dropWhile p).length = l.length := by
  have h := congrArg List.length (List.takeWhile_append_dropWhile p l)
  rwa [List.length_append] at h

theorem tryDecimal_some_rest {s : Str} {m : Str × Str} (h : tryDecimal s = some m) :
    m.2.length < s.length ∧ ∀ x ∈ m.2, x ∈ s := by
  have hlen := length_take_drop Char.isDigit s
  cases hd : s.dropWhile Char.isDigit with
  | nil => simp [tryDecimal, hd] at h
  | cons a t1 =>
    cases t1 with
    | nil => simp [tryDecimal, hd] at h
    | cons b t2 =>
      cases t2 with
      | nil => simp [tryDecimal, hd] at h
      | cons c2 rest =>
        simp only [tryDecimal, hd] at h
        split at h
        · injection h with h2
          subst h2
          constructor
          · rw [hd] at hlen
            simp only [List.length_cons] at hlen ⊢
            omega
          · intro x hx
            exact mem_of_dropWhile s x
              (by rw [hd]
                  exact List.mem_cons_of_mem _ (List.mem_cons_of_mem _ (List.mem_cons_of_mem _ hx)))
        · exact absurd h (by simp)

theorem tryInt_some_rest {s : Str} {m : Str × Str} (h : tryInt s = some m) :
    m.2.length < s.length ∧ ∀ x ∈ m.2, x ∈ s := by
  have hlen := length_take_drop Char.isDigit s
  simp only [tryInt] at h
  split at h
  · next hc =>
    injection h with h2
    subst h2
    constructor
    · have hne : (s.takeWhile Char.isDigit).isEmpty = false := by
        simp only [Bool.and_eq_true, Bool.not_eq_true'] at hc
        exact hc.1
      have hnil : s.takeWhile Char.isDigit ≠ [] := by simpa using hne
      have hpos : 0 < (s.takeWhile Char.isDigit).length := List.length_pos.mpr hnil
      dsimp only
      omega
    · intro x hx
      exact mem_of_dropWhile s x hx
  · exact absurd h (by simp)

theorem findallAux_fuel :
    ∀ (n n' : Nat) (b : Bool) (s : Str), s.length ≤ n → s.length ≤ n' →
      findallAux n b s = findallAux n' b s := by
  intro n
  induction n with
  | zero =>
    intro n' b s hn hn'
    have hs : s = [] := List.eq_nil_of_length_eq_zero (Nat.le_zero.mp hn)
    subst hs
    cases n' <;> rfl
  | succ n ih =>
    intro n' b s hn hn'
    cases s with
    | nil => cases n' <;> rfl
    | cons c rest =>
      cases n' with
      | zero => simp at hn'
      | succ k =>
        have hr : rest.length ≤ n := by simp at hn; omega
        have hr' : rest.length ≤ k := by simp at hn'; omega
        simp only [findallAux]
        cases b with
        | true => simp [ih k (isWordChar c) rest hr hr']
        | false =>
          cases hm : tryDecimal (c :: rest) with
          | some m =>
            have hlt := (tryDecimal_some_rest hm).1
            simp only [List.length_cons] at hlt
            have h1 : m.2.length ≤ n := by omega
            have h2 : m.2.length ≤ k := by omega
            simp [ih k true m.2 h1 h2]
          | none =>
            cases hm2 : tryInt (c :: rest) with
            | some m =>
              have hlt := (tryInt_some_rest hm2).1
              simp only [List.length_cons] at hlt
              have h1 : m.2.length ≤ n := by omega
              have h2 : m.2.length ≤ k := by omega
              simp [hm, ih k true m.2 h1 h2]
            | none => simp [hm, hm2, ih k (isWordChar c) rest hr hr']

theorem findallAux_of_no_digits :
    ∀ (fuel : Nat) (b : Bool) (s : Str), (∀ c ∈ s, c.isDigit = false) →
      findallAux fuel b s = [] := by
  intro fuel
  induction fuel with
  | zero => intro b s h; rfl
  | succ n ih =>
    intro b s h
    cases s with
    | nil => rfl
    | cons c rest =>
      have hc := h c (List.mem_cons_self _ _)
      have hrest : ∀ x ∈ rest, x.isDigit = false :=
        fun x hx => h x (List.mem_cons_of_mem _ hx)
      have htw : (c :: rest).takeWhile Char.isDigit = [] := by
        simp [List.takeWhile_cons, hc]
      have hdec : tryDecimal (c :: rest) = none := by
        cases hd : (c :: rest).dropWhile Char.isDigit with
        | nil => simp [tryDecimal, hd]
        | cons a t1 =>
          cases t1 with
          | nil => simp [tryDecimal, hd]
          | cons b2 t2 =>
            cases t2 with
            | nil => simp [tryDecimal, hd]
            | cons c2 r => simp [tryDecimal, hd, htw]
      have hint : tryInt (c :: rest) = none := by simp [tryInt, htw]
      simp only [findallAux, hdec, hint]
      cases b with
      | true => simp [ih (isWordChar c) rest hrest]
      | false => simp [ih (isWordChar c) rest hrest]

/-! ## Equivalence of the regex scan with the spec-side extraction on
the restricted alphabet -/

theorem wordChar_eq_isDigit {c : Char}
    (h : c.isDigit = true ∨ c = '.' ∨ c = ' ') : isWordChar c = c.isDigit := by
  rcases h with h | h | h
  · simp [isWordChar, Char.isAlphanum, h]
  · subst h; decide
  · subst h; decide

theorem boundary_eq {s : Str}
    (h : ∀ c ∈ s, c.isDigit = true ∨ c = '.' ∨ c = ' ') :
    boundaryAfter s = refBoundaryAfter s := by
  cases s with
  | nil => rfl
  | cons c rest =>
    simp only [boundaryAfter, refBoundaryAfter,
      wordChar_eq_isDigit (h c (List.mem_cons_self _ _))]

theorem tryDec_eq {s : Str}
    (h : ∀ c ∈ s, c.isDigit = true ∨ c = '.' ∨ c = ' ') :
    tryDecimal s = refTryDec s := by
  cases hd : s.dropWhile Char.isDigit with
  | nil => simp [tryDecimal, refTryDec, hd]
  | cons a t1 =>
    cases t1 with
    | nil => simp [tryDecimal, refTryDec, hd]
    | cons b t2 =>
      cases t2 with
      | nil => simp [tryDecimal, refTryDec, hd]
      | cons c2 rest =>
        have hrest : ∀ x ∈ rest, x.isDigit = true ∨ x = '.' ∨ x = ' ' := by
          intro x hx
          refine h x (mem_of_dropWhile (p := Char.isDigit) s x ?_)
          rw [hd]
          exact List.mem_cons_of_mem _ (List.mem_cons_of_mem _ (List.mem_cons_of_mem _ hx))
        simp [tryDecimal, refTryDec, hd, boundary_eq hrest]

theorem tryInt_eq {s : Str}
    (h : ∀ c ∈ s, c.isDigit = true ∨ c = '.' ∨ c = ' ') :
    tryInt s = refTryInt s := by
  have hrest : ∀ x ∈ s.dropWhile Char.isDigit, x.isDigit = true ∨ x = '.' ∨ x = ' ' :=
    fun x hx => h x (mem_of_dropWhile s x hx)
  simp [tryInt, refTryInt, boundary_eq hrest]

theorem findallAux_eq_ref :
    ∀ (fuel : Nat) (b : Bool) (s : Str),
      (∀ c ∈ s, c.isDigit = true ∨ c = '.' ∨ c = ' ') →
      findallAux fuel b s = refExtractAux fuel b s := by
  intro fuel
  induction fuel with
  | zero => intro b s h; rfl
  | succ n ih =>
    intro b s h
    cases s with
    | nil => rfl
    | cons c rest =>
      have hc := h c (List.mem_cons_self _ _)
      have hrest : ∀ x ∈ rest, x.isDigit = true ∨ x = '.' ∨ x = ' ' :=
        fun x hx => h x (List.mem_cons_of_mem _ hx)
      have hw : isWordChar c = c.isDigit := wordChar_eq_isDigit hc
      simp only [findallAux, refExtractAux, hw, tryDec_eq h, tryInt_eq h]
      cases b with
      | true => simp [ih c.isDigit rest hrest]
      | false =>
        cases hm : refTryDec (c :: rest) with
        | some m =>
          have hsub := (tryDecimal_some_rest (s := c :: rest) (m := m)
            (by rw [tryDec_eq h, hm])).2
          simp [ih true m.2 (fun x hx => h x (hsub x hx))]
        | none =>
          cases hm2 : refTryInt (c :: rest) with
          | some m =>
            have hsub := (tryInt_some_rest (s := c :: rest) (m := m)
              (by rw [tryInt_eq h, hm2])).2
            simp [hm, ih true m.2 (fun x hx => h x (hsub x hx))]
          | none => simp [hm, hm2, ih c.isDigit rest hrest]

/-! ## Helper lemmas about the frame-tree search -/

theorem find_canvas_pre :
    ∀ (n : Nat) (fs : List FrameTree), sizeL fs ≤ n →
      find_canvas_in_frames fs = (preorderL fs).find? canvasVisible := by
  intro n
  induction n with
  | zero =>
    intro fs h
    cases fs with
    | nil => simp [find_canvas_in_frames, preorderL]
    | cons t rest =>
      cases t with
      | mk p cs => exfalso; simp only [sizeL] at h; omega
  | succ n ih =>
    intro fs h
    cases fs with
    | nil => simp [find_canvas_in_frames, preorderL]
    | cons t rest =>
      cases t with
      | mk p cs =>
        have h1 : sizeL cs ≤ n := by simp only [sizeL] at h; omega
        have h2 : sizeL rest ≤ n := by simp only [sizeL] at h; omega
        simp only [find_canvas_in_frames, preorderL]
        by_cases hv : canvasVisible (FrameTree.mk p cs)
        · rw [if_pos hv, List.find?_cons_of_pos _ hv]
        · rw [if_neg hv, List.find?_cons_of_neg _ hv, List.find?_append,
            ← ih cs h1, ← ih rest h2]
          cases find_canvas_in_frames cs <;> simp [Option.or]

theorem findFuel_aux :
    ∀ (n : Nat) (fs : List FrameTree), sizeL fs ≤ n →
      findFuel n fs = some (find_canvas_in_frames fs) := by
  intro n
  induction n with
  | zero =>
    intro fs h
    cases fs with
    | nil => simp [findFuel, find_canvas_in_frames]
    | cons t rest =>
      cases t with
      | mk p cs => exfalso; simp only [sizeL] at h; omega
  | succ n ih =>
    intro fs h
    cases fs with
    | nil => simp [findFuel, find_canvas_in_frames]
    | cons t rest =>
      cases t with
      | mk p cs =>
        have h1 : sizeL cs ≤ n := by simp only [sizeL] at h; omega
        have h2 : sizeL rest ≤ n := by simp only [sizeL] at h; omega
        simp only [findFuel, find_canvas_in_frames]
        by_cases hv : canvasVisible (FrameTree.mk p cs)
        · rw [if_pos hv, if_pos hv]
        · rw [if_neg hv, if_neg hv, ih cs h1]
          cases hc : find_canvas_in_frames cs with
          | some f => rfl
          | none => exact ih rest h2

/-! ## Claim theorems -/

/-- C1: for every candidate list produced by the score-extraction
heuristic in which at least one length-filtered candidate contains a
decimal point, the selected score is a decimal candidate (a member of
the candidate list that contains a dot), never a bare-integer
candidate, regardless of the integers' lengths. -/
theorem decimal_candidates_always_win (cands : List Str)
    (h : ∃ s ∈ cands, hasDot s = true) :
    prioritize cands ∈ cands ∧ hasDot (prioritize cands) = true := by
  obtain ⟨s, hs, hdot⟩ := h
  have hmemf : s ∈ cands.filter hasDot := List.mem_filter.mpr ⟨hs, hdot⟩
  cases hd : cands.filter hasDot with
  | nil => rw [hd] at hmemf; simp at hmemf
  | cons d ds =>
    rw [prioritize_eq_decimal cands d ds hd]
    have hm : pyMax d ds ∈ cands.filter hasDot := by
      rw [hd]; exact pyMax_mem ds d
    exact ⟨(List.mem_filter.mp hm).1, (List.mem_filter.mp hm).2⟩

/-- Witness for C1 on the spec's example "603 1000.00": with candidates
["603", "1000.00"], the selection is a member with a decimal point. -/
theorem decimal_candidates_always_win_witness :
    prioritize [strOf "603", strOf "1000.00"] ∈ [strOf "603", strOf "1000.00"] ∧
      hasDot (prioritize [strOf "603", strOf "1000.00"]) = true :=
  decimal_candidates_always_win _ ⟨strOf "1000.00", by decide, by decide⟩

/-- C2: within the preferred partition (decimal candidates if any
remain, otherwise integer candidates), the heuristic selects the
candidate of maximal string length, and when several candidates share
that maximal length it selects the first-encountered one. -/
theorem selection_is_stable_max_by_length (cands : List Str) :
    (∀ d ds, cands.filter hasDot = d :: ds →
      isFirstMax (d :: ds) (prioritize cands)) ∧
    (cands.filter hasDot = [] →
      ∀ i js, cands.filter (fun s => !hasDot s) = i :: js →
        isFirstMax (i :: js) (prioritize cands)) := by
  constructor
  · intro d ds hd
    rw [prioritize_eq_decimal cands d ds hd]
    exact pyMax_isFirstMax d ds
  · intro hd i js hi
    rw [prioritize_eq_integer cands i js hd hi]
    exact pyMax_isFirstMax i js

/-- Witness for C2: on candidates ["12.34", "99.99", "1"] the decimal
partition is ["12.34", "99.99"], both of maximal length 5, and the
first-encountered one is selected. -/
theorem selection_is_stable_max_by_length_witness :
    isFirstMax [strOf "12.34", strOf "99.99"]
      (prioritize [strOf "12.34", strOf "99.99", strOf "1"]) :=
  (selection_is_stable_max_by_length [strOf "12.34", strOf "99.99", strOf "1"]).1
    (strOf "12.34") [strOf "99.99"] (by decide)

/-- C3: every extracted number candidate whose total character length
lies outside [1, 7] inclusive is discarded before selection - the
selected score, when it is not the sentinel, is an extracted candidate
of length between 1 and 7 - and in particular the input "12345678",
whose only candidate is an 8-character digit run, yields the sentinel. -/
theorem length_window_filters_selection :
    (∀ text : Str,
      selectScore text = sentinel ∨
        (selectScore text ∈ findall text ∧ 1 ≤ (selectScore text).length ∧
          (selectScore text).length ≤ 7)) ∧
    selectScore (strOf "12345678") = sentinel := by
  constructor
  · intro text
    have hsel : selectScore text = prioritize ((findall text).filter inWindow) := rfl
    rcases prioritize_spec ((findall text).filter inWindow) with h | h
    · left; rw [hsel]; exact h
    · right
      rw [hsel]
      have hm := List.mem_filter.mp h
      have hw : 1 ≤ (prioritize ((findall text).filter inWindow)).length ∧
          (prioritize ((findall text).filter inWindow)).length ≤ 7 := by
        have h2 := hm.2
        simp only [inWindow, decide_eq_true_eq] at h2
        exact h2
      exact ⟨hm.1, hw.1, hw.2⟩
  · decide

/-- C4: candidate extraction agrees with the reference definition from
the spec's wording on every input over the restricted alphabet
(digits, dot, space); moreover "1000.00" is captured whole (its integer
part is not emitted as a separate bare integer), and "1000.0" - a
decimal with only one fractional digit - contributes only bare-integer
candidates, never a decimal candidate. -/
theorem extraction_equals_spec_reference :
    (∀ text : Str, (∀ c ∈ text, c.isDigit = true ∨ c = '.' ∨ c = ' ') →
        findall text = refExtract text) ∧
    findall (strOf "1000.00") = [strOf "1000.00"] ∧
    findall (strOf "1000.0") = [strOf "1000", strOf "0"] ∧
    ∀ m ∈ findall (strOf "1000.0"), hasDot m = false := by
  refine ⟨fun text h => findallAux_eq_ref text.length false text h, by decide, by decide, ?_⟩
  decide

/-- Witness for C4: on the concrete OCR text "603 1000.00" the regex
scan and the spec-side reference extraction coincide. -/
theorem extraction_equals_spec_reference_witness :
    findall (strOf "603 1000.00") = refExtract (strOf "603 1000.00") :=
  extraction_equals_spec_reference.1 (strOf "603 1000.00") (by decide)

/-- C5: for every recognized-text input that contains no digit
characters, the extraction-and-selection heuristic returns the
"no suitable score" sentinel (and, being a total function, never
throws). -/
theorem no_digit_text_yields_sentinel (text : Str)
    (h : ∀ c ∈ text, c.isDigit = false) : selectScore text = sentinel := by
  have hf : findall text = [] := findallAux_of_no_digits text.length false text h
  show prioritize ((findall text).filter inWindow) = sentinel
  rw [hf]
  rfl

/-- Witness for C5: the empty text and a digit-free text both yield
the sentinel. -/
theorem no_digit_text_yields_sentinel_witness :
    selectScore (strOf "") = sentinel ∧ selectScore (strOf ". .") = sentinel :=
  ⟨no_digit_text_yields_sentinel (strOf "") (by decide),
   no_digit_text_yields_sentinel (strOf ". .") (by decide)⟩

/-- C6: for every frame tree, the canvas locator returns the first
frame in depth-first pre-order (node, then children in encounter
order, then next sibling) whose canvas probe reports a visible canvas;
frames whose canvas is not visible and frames whose probe raises are
skipped without aborting the search, and when no visible canvas exists
the search returns the not-found value `none` rather than raising. -/
theorem canvas_search_first_visible_preorder (fs : List FrameTree) :
    find_canvas_in_frames fs = (preorderL fs).find? canvasVisible :=
  find_canvas_pre (sizeL fs) fs le_rfl

/-- C9: the frame-tree canvas search terminates on every finite frame
forest: executing it with a step budget equal to the number of frames
always finishes (never exhausts the budget) and returns the search
result. -/
theorem canvas_search_terminates_in_size_steps (fs : List FrameTree) :
    findFuel (sizeL fs) fs = some (find_canvas_in_frames fs) :=
  findFuel_aux (sizeL fs) fs le_rfl

/-- C7: for every image dimensions, if the crop rectangle after
clamping is empty (left ≥ right or top ≥ bottom), the region cropper
returns the defined "invalid region" error value, and the full pipeline
returns that message without performing any extraction (its result does
not depend on the recognition input). -/
theorem empty_clamped_crop_returns_invalid_region (w h : Nat)
    (hemp : (clampCrop w h (proposedRect w h)).x1 ≥ (clampCrop w h (proposedRect w h)).x2 ∨
      (clampCrop w h (proposedRect w h)).y1 ≥ (clampCrop w h (proposedRect w h)).y2) :
    cropRegion w h = Except.error (strOf "Invalid custom crop region.") ∧
    ∀ ocr : Except Unit (List Str),
      read_game_score_custom_crop ⟨true, some (h, w), ocr⟩ =
        some (strOf "Invalid custom crop region.") := by
  have hc : cropRegion w h = Except.error (strOf "Invalid custom crop region.") := by
    simp only [cropRegion]
    rw [if_pos hemp]
  refine ⟨hc, fun ocr => ?_⟩
  simp [read_game_score_custom_crop, hc]

/-- Witness for C7: a 1-pixel-wide, 10-pixel-high image clamps to an
empty rectangle and the pipeline reports the invalid-region message
regardless of recognition. -/
theorem empty_clamped_crop_returns_invalid_region_witness :
    cropRegion 1 10 = Except.error (strOf "Invalid custom crop region.") ∧
      read_game_score_custom_crop ⟨true, some (10, 1), Except.ok [strOf "42.00"]⟩ =
        some (strOf "Invalid custom crop region.") :=
  ⟨(empty_clamped_crop_returns_invalid_region 1 10 (by decide)).1,
   (empty_clamped_crop_returns_invalid_region 1 10 (by decide)).2 (Except.ok [strOf "42.00"])⟩

/-- C8: for every image dimensions, the computed crop boundaries are
clamped into [0, W] × [0, H], and whenever the cropper accepts a
rectangle the subsequent slice satisfies 0 ≤ x1 < x2 ≤ W and
0 ≤ y1 < y2 ≤ H, so region extraction never reads outside the image
bounds. -/
theorem crop_clamped_within_image_bounds (w h : Nat) :
    (0 ≤ (clampCrop w h (proposedRect w h)).x1 ∧
      (clampCrop w h (proposedRect w h)).x1 ≤ w ∧
      0 ≤ (clampCrop w h (proposedRect w h)).y1 ∧
      (clampCrop w h (proposedRect w h)).y1 ≤ h ∧
      0 ≤ (clampCrop w h (proposedRect w h)).x2 ∧
      (clampCrop w h (proposedRect w h)).x2 ≤ w ∧
      0 ≤ (clampCrop w h (proposedRect w h)).y2 ∧
      (clampCrop w h (proposedRect w h)).y2 ≤ h) ∧
    ∀ r : CropRect, cropRegion w h = Except.ok r →
      0 ≤ r.x1 ∧ r.x1 < r.x2 ∧ r.x2 ≤ w ∧ 0 ≤ r.y1 ∧ r.y1 < r.y2 ∧ r.y2 ≤ h := by
  constructor
  · simp only [clampCrop, proposedRect]
    refine ⟨?_, ?_, ?_, ?_, ?_, ?_, ?_, ?_⟩ <;> dsimp only <;> omega
  · intro r hr
    simp only [cropRegion, clampCrop, proposedRect] at hr
    split at hr
    · exact absurd hr (by simp)
    · next hcond =>
      injection hr with hr2
      subst hr2
      simp only [not_or, not_le] at hcond
      refine ⟨?_, ?_, ?_, ?_, ?_, ?_⟩ <;> dsimp only at hcond ⊢ <;> omega

/-- Witness for C8: a 100 × 100 image is accepted with the in-bounds
rectangle (0, 10, 50, 90). -/
theorem crop_clamped_within_image_bounds_witness :
    0 ≤ (CropRect.mk 0 10 50 90).x1 ∧ (CropRect.mk 0 10 50 90).x1 < (CropRect.mk 0 10 50 90).x2 ∧
      (CropRect.mk 0 10 50 90).x2 ≤ (100 : Nat) ∧ 0 ≤ (CropRect.mk 0 10 50 90).y1 ∧
      (CropRect.mk 0 10 50 90).y1 < (CropRect.mk 0 10 50 90).y2 ∧
      (CropRect.mk 0 10 50 90).y2 ≤ (100 : Nat) :=
  (crop_clamped_within_image_bounds 100 100).2 (CropRect.mk 0 10 50 90) rfl

/-- C10: the score-reading entry point returns the distinguished null
value `none` (Python None) exactly in the three hard-failure cases:
the image file does not exist, the image cannot be decoded, or the
recognition step is reached (the crop stage passes) and raises an
exception; every other outcome is a string (a score, the
"No suitable score found." sentinel, "No text found by EasyOCR.", or
the invalid/empty-crop messages). -/
theorem none_exactly_on_hard_failures (env : OcrEnv) :
    read_game_score_custom_crop env = none ↔
      (env.fileExists = false ∨ env.decoded = none ∨
        ∃ p : Nat × Nat, env.decoded = some p ∧ cropStagePasses p.1 p.2 = true ∧
          env.ocrText = Except.error ()) := by
  obtain ⟨fe, dec, ocr⟩ := env
  cases fe with
  | false => simp [read_game_score_custom_crop]
  | true =>
    cases dec with
    | none => simp [read_game_score_custom_crop]
    | some p =>
      obtain ⟨h, w⟩ := p
      cases hcr : cropRegion w h with
      | error msg =>
        simp [read_game_score_custom_crop, cropStagePasses, hcr]
      | ok r =>
        by_cases hemp : (r.y2 - r.y1 = 0 ∨ r.x2 - r.x1 = 0)
        · have hpass : cropStagePasses h w = false := by
            simp [cropStagePasses, hcr, hemp]
          simp [read_game_score_custom_crop, hcr, hemp, hpass]
        · have hpass : cropStagePasses h w = true := by
            simp [cropStagePasses, hcr, hemp]
          cases ocr with
          | error u =>
            cases u
            simp [read_game_score_custom_crop, hcr, hemp, hpass]
          | ok results =>
            by_cases hje : (joinSpace results).isEmpty
            · simp [read_game_score_custom_crop, hcr, hemp, hpass, hje]
            · simp [read_game_score_custom_crop, hcr, hemp, hpass, hje]
